import Mathlib

/-!
# Verification of the Givens-rotation tutorial circuits

This file embeds the quantum circuits of
`demonstrations/tutorial_givens_rotations.py` in Lean.

A state of `n` qubits is a map from occupation vectors (`Fin n → Bool`,
entry `i` giving the occupation of qubit/wire `i`) to complex amplitudes.
The gates are translated from the matrices displayed in the tutorial:

* `SingleExcitation θ p q` is the Givens rotation `G(θ)` acting on wires
  `p, q`: on the two-dimensional subspace spanned by the occupation
  patterns `01`/`10` of wires `(p, q)` it acts by the matrix rows
  `ψ(01) ↦ cos(θ/2)·ψ(01) − sin(θ/2)·ψ(10)` and
  `ψ(10) ↦ sin(θ/2)·ψ(01) + cos(θ/2)·ψ(10)`, and it is the identity on
  every other basis state.
* `DoubleExcitation θ a b c d` is the rotation `G²(θ)` coupling the
  occupation patterns `0011`/`1100` of wires `(a, b, c, d)` in the same
  way, identity elsewhere.
-/

open Complex (normSq)

/-- Occupation vector obtained from `b` by exchanging the occupations of
wires `p` and `q` (the partner basis state of a single excitation). -/
def swapBits {n : ℕ} (p q : Fin n) (b : Fin n → Bool) : Fin n → Bool :=
  Function.update (Function.update b p (b q)) q (b p)

/-- Occupation vector obtained from `x` by negating the occupations of the
four wires `a, b, c, d` (the partner basis state of a double excitation). -/
def flipBits4 {n : ℕ} (a b c d : Fin n) (x : Fin n → Bool) : Fin n → Bool :=
  fun i => if i = a ∨ i = b ∨ i = c ∨ i = d then !(x i) else x i

/-- The single-excitation Givens rotation `G(θ)` of the tutorial, acting on
wires `p` and `q` of an `n`-qubit state.  The matrix (tutorial, "Givens
rotations" section) is `[[1,0,0,0],[0,c,-s,0],[0,s,c,0],[0,0,0,1]]` with
`c = cos(θ/2)`, `s = sin(θ/2)`, in the basis `|00⟩,|01⟩,|10⟩,|11⟩` of the
two wires. -/
noncomputable def SingleExcitation {n : ℕ} (θ : ℝ) (p q : Fin n)
    (ψ : (Fin n → Bool) → ℂ) : (Fin n → Bool) → ℂ :=
  fun b =>
    if b p = false ∧ b q = true then
      (Real.cos (θ / 2) : ℂ) * ψ b - (Real.sin (θ / 2) : ℂ) * ψ (swapBits p q b)
    else if b p = true ∧ b q = false then
      (Real.cos (θ / 2) : ℂ) * ψ b + (Real.sin (θ / 2) : ℂ) * ψ (swapBits p q b)
    else ψ b

/-- The double-excitation rotation `G²(θ)` of the tutorial, acting on wires
`a, b, c, d` of an `n`-qubit state.  Per the tutorial,
`G²|0011⟩ = cos(θ/2)|0011⟩ + sin(θ/2)|1100⟩` and
`G²|1100⟩ = cos(θ/2)|1100⟩ − sin(θ/2)|0011⟩`, leaving all other basis
states unchanged. -/
noncomputable def DoubleExcitation {n : ℕ} (θ : ℝ) (a b c d : Fin n)
    (ψ : (Fin n → Bool) → ℂ) : (Fin n → Bool) → ℂ :=
  fun x =>
    if x a = false ∧ x b = false ∧ x c = true ∧ x d = true then
      (Real.cos (θ / 2) : ℂ) * ψ x - (Real.sin (θ / 2) : ℂ) * ψ (flipBits4 a b c d x)
    else if x a = true ∧ x b = true ∧ x c = false ∧ x d = false then
      (Real.cos (θ / 2) : ℂ) * ψ x + (Real.sin (θ / 2) : ℂ) * ψ (flipBits4 a b c d x)
    else ψ x

/-- `qml.BasisState`: the computational basis state with occupation `b0`,
as a state vector. -/
def BasisState {n : ℕ} (b0 : Fin n → Bool) : (Fin n → Bool) → ℂ :=
  fun b => if b = b0 then 1 else 0

/-- Hamming weight (particle number) of an occupation vector. -/
def weight {n : ℕ} (b : Fin n → Bool) : ℕ :=
  ∑ i, if b i then 1 else 0

/-- Total squared norm of a state vector. -/
noncomputable def normTotal {n : ℕ} (ψ : (Fin n → Bool) → ℂ) : ℝ :=
  ∑ b, normSq (ψ b)

/-- A state is supported on particle number `m` when every basis state with
a nonzero amplitude has Hamming weight `m`. -/
def supportedOnWeight {n : ℕ} (m : ℕ) (ψ : (Fin n → Bool) → ℂ) : Prop :=
  ∀ b, ψ b ≠ 0 → weight b = m

section BitLemmas

variable {n : ℕ}

theorem swapBits_comp_swap (p q : Fin n) (b : Fin n → Bool) :
    swapBits p q b = b ∘ (Equiv.swap p q) := by
  funext i
  simp only [swapBits, Function.update_apply, Function.comp_apply, Equiv.swap_apply_def]
  by_cases hiq : i = q
  · subst hiq
    by_cases hqp : i = p
    · subst hqp; simp
    · simp [hqp]
  · by_cases hip : i = p
    · subst hip; simp [hiq]
    · simp [hip, hiq]

theorem swapBits_involutive (p q : Fin n) :
    Function.Involutive (swapBits p q) := by
  intro b
  funext i
  simp only [swapBits, Function.update_apply]
  by_cases hiq : i = q
  · subst hiq
    by_cases hqp : i = p
    · subst hqp; simp
    · by_cases hpi : p = i
      · exact absurd hpi.symm hqp
      · simp [hqp, hpi]
  · by_cases hip : i = p
    · subst hip; simp [hiq]
    · simp [hip, hiq]

theorem swapBits_apply_fst {p q : Fin n} (hpq : p ≠ q) (b : Fin n → Bool) :
    swapBits p q b p = b q := by
  simp [swapBits, Function.update_apply, hpq]

theorem swapBits_apply_snd (p q : Fin n) (b : Fin n → Bool) :
    swapBits p q b q = b p := by
  simp [swapBits]

theorem swapBits_eq_self {p q : Fin n} {b : Fin n → Bool} (h : b p = b q) :
    swapBits p q b = b := by
  funext i
  simp only [swapBits, Function.update_apply]
  by_cases hiq : i = q
  · subst hiq; simp [h]
  · by_cases hip : i = p
    · subst hip; simp [hiq, h]
    · simp [hip, hiq]

theorem weight_swapBits (p q : Fin n) (b : Fin n → Bool) :
    weight (swapBits p q b) = weight b := by
  rw [swapBits_comp_swap]
  exact Equiv.sum_comp (Equiv.swap p q) (fun j => if b j then 1 else 0)

theorem flipBits4_involutive (a b c d : Fin n) :
    Function.Involutive (flipBits4 a b c d) := by
  intro x
  funext i
  simp only [flipBits4]
  by_cases h : i = a ∨ i = b ∨ i = c ∨ i = d <;> simp [h]

theorem flipBits4_apply_mem {a b c d i : Fin n}
    (h : i = a ∨ i = b ∨ i = c ∨ i = d) (x : Fin n → Bool) :
    flipBits4 a b c d x i = !(x i) := by
  simp [flipBits4, h]

theorem flipBits4_apply_notMem {a b c d i : Fin n}
    (h : ¬(i = a ∨ i = b ∨ i = c ∨ i = d)) (x : Fin n → Bool) :
    flipBits4 a b c d x i = x i := by
  simp only [flipBits4, if_neg h]

end BitLemmas

section GateApply

variable {n : ℕ}

theorem SingleExcitation_apply_lo (θ : ℝ) {p q : Fin n} (ψ : (Fin n → Bool) → ℂ)
    {b : Fin n → Bool} (hp : b p = false) (hq : b q = true) :
    SingleExcitation θ p q ψ b =
      (Real.cos (θ / 2) : ℂ) * ψ b - (Real.sin (θ / 2) : ℂ) * ψ (swapBits p q b) := by
  simp [SingleExcitation, hp, hq]

theorem SingleExcitation_apply_hi (θ : ℝ) {p q : Fin n} (ψ : (Fin n → Bool) → ℂ)
    {b : Fin n → Bool} (hp : b p = true) (hq : b q = false) :
    SingleExcitation θ p q ψ b =
      (Real.cos (θ / 2) : ℂ) * ψ b + (Real.sin (θ / 2) : ℂ) * ψ (swapBits p q b) := by
  simp [SingleExcitation, hp, hq]

theorem SingleExcitation_apply_other (θ : ℝ) {p q : Fin n} (ψ : (Fin n → Bool) → ℂ)
    {b : Fin n → Bool} (h : b p = b q) :
    SingleExcitation θ p q ψ b = ψ b := by
  cases hb : b p <;> rw [hb] at h <;> simp [SingleExcitation, hb, h.symm]

theorem DoubleExcitation_apply_lo (θ : ℝ) {a b c d : Fin n} (ψ : (Fin n → Bool) → ℂ)
    {x : Fin n → Bool} (ha : x a = false) (hb : x b = false) (hc : x c = true)
    (hd : x d = true) :
    DoubleExcitation θ a b c d ψ x =
      (Real.cos (θ / 2) : ℂ) * ψ x - (Real.sin (θ / 2) : ℂ) * ψ (flipBits4 a b c d x) := by
  simp [DoubleExcitation, ha, hb, hc, hd]

theorem DoubleExcitation_apply_hi (θ : ℝ) {a b c d : Fin n} (ψ : (Fin n → Bool) → ℂ)
    {x : Fin n → Bool} (ha : x a = true) (hb : x b = true) (hc : x c = false)
    (hd : x d = false) :
    DoubleExcitation θ a b c d ψ x =
      (Real.cos (θ / 2) : ℂ) * ψ x + (Real.sin (θ / 2) : ℂ) * ψ (flipBits4 a b c d x) := by
  simp [DoubleExcitation, ha, hb, hc, hd]

theorem DoubleExcitation_apply_other (θ : ℝ) {a b c d : Fin n} (ψ : (Fin n → Bool) → ℂ)
    {x : Fin n → Bool}
    (h1 : ¬(x a = false ∧ x b = false ∧ x c = true ∧ x d = true))
    (h2 : ¬(x a = true ∧ x b = true ∧ x c = false ∧ x d = false)) :
    DoubleExcitation θ a b c d ψ x = ψ x := by
  simp only [DoubleExcitation, if_neg h1, if_neg h2]

theorem flipBits4_apply_a (a b c d : Fin n) (x : Fin n → Bool) :
    flipBits4 a b c d x a = !(x a) := flipBits4_apply_mem (Or.inl rfl) x

theorem flipBits4_apply_b (a b c d : Fin n) (x : Fin n → Bool) :
    flipBits4 a b c d x b = !(x b) := flipBits4_apply_mem (Or.inr (Or.inl rfl)) x

theorem flipBits4_apply_c (a b c d : Fin n) (x : Fin n → Bool) :
    flipBits4 a b c d x c = !(x c) := flipBits4_apply_mem (Or.inr (Or.inr (Or.inl rfl))) x

theorem flipBits4_apply_d (a b c d : Fin n) (x : Fin n → Bool) :
    flipBits4 a b c d x d = !(x d) := flipBits4_apply_mem (Or.inr (Or.inr (Or.inr rfl))) x

end GateApply

section NormLemmas

/-- A plane rotation by an angle whose cosine/sine are `c`/`s` preserves the
sum of the squared moduli of the two coupled amplitudes. -/
theorem normSq_rot (c s : ℝ) (hcs : c ^ 2 + s ^ 2 = 1) (A B : ℂ) :
    normSq ((c : ℂ) * A - (s : ℂ) * B) + normSq ((c : ℂ) * B + (s : ℂ) * A) =
      normSq A + normSq B := by
  simp only [Complex.normSq_apply, Complex.sub_re, Complex.sub_im, Complex.add_re,
    Complex.add_im, Complex.mul_re, Complex.mul_im, Complex.ofReal_re, Complex.ofReal_im]
  linear_combination (A.re ^ 2 + A.im ^ 2 + B.re ^ 2 + B.im ^ 2) * hcs

theorem normTotal_SingleExcitation {n : ℕ} (θ : ℝ) (p q : Fin n)
    (ψ : (Fin n → Bool) → ℂ) :
    normTotal (SingleExcitation θ p q ψ) = normTotal ψ := by
  by_cases hpq : p = q
  · subst hpq
    have hid : SingleExcitation θ p p ψ = ψ := by
      funext b
      exact SingleExcitation_apply_other θ ψ rfl
    rw [hid]
  · have hcs : Real.cos (θ / 2) ^ 2 + Real.sin (θ / 2) ^ 2 = 1 :=
      Real.cos_sq_add_sin_sq (θ / 2)
    have hσ : Function.Involutive (swapBits p q) := swapBits_involutive p q
    have key : ∀ b, normSq (SingleExcitation θ p q ψ b) +
        normSq (SingleExcitation θ p q ψ (swapBits p q b)) =
        normSq (ψ b) + normSq (ψ (swapBits p q b)) := by
      intro b
      cases hbp : b p <;> cases hbq : b q
      · have hfix : swapBits p q b = b := swapBits_eq_self (by rw [hbp, hbq])
        rw [hfix, SingleExcitation_apply_other θ ψ (by rw [hbp, hbq])]
      · have h1 := SingleExcitation_apply_lo θ ψ hbp hbq
        have hp' : swapBits p q b p = true := by rw [swapBits_apply_fst hpq, hbq]
        have hq' : swapBits p q b q = false := by rw [swapBits_apply_snd, hbp]
        have h2 := SingleExcitation_apply_hi θ ψ hp' hq'
        rw [h1, h2, hσ b]
        exact normSq_rot _ _ hcs (ψ b) (ψ (swapBits p q b))
      · have h1 := SingleExcitation_apply_hi θ ψ hbp hbq
        have hp' : swapBits p q b p = false := by rw [swapBits_apply_fst hpq, hbq]
        have hq' : swapBits p q b q = true := by rw [swapBits_apply_snd, hbp]
        have h2 := SingleExcitation_apply_lo θ ψ hp' hq'
        rw [h1, h2, hσ b]
        have := normSq_rot _ _ hcs (ψ (swapBits p q b)) (ψ b)
        linarith
      · have hfix : swapBits p q b = b := swapBits_eq_self (by rw [hbp, hbq])
        rw [hfix, SingleExcitation_apply_other θ ψ (by rw [hbp, hbq])]
    have hre1 : ∑ b, normSq (SingleExcitation θ p q ψ (swapBits p q b)) =
        ∑ b, normSq (SingleExcitation θ p q ψ b) :=
      hσ.bijective.sum_comp (fun b => normSq (SingleExcitation θ p q ψ b))
    have hre2 : ∑ b, normSq (ψ (swapBits p q b)) = ∑ b, normSq (ψ b) :=
      hσ.bijective.sum_comp (fun b => normSq (ψ b))
    have hsum : ∑ b, (normSq (SingleExcitation θ p q ψ b) +
        normSq (SingleExcitation θ p q ψ (swapBits p q b))) =
        ∑ b, (normSq (ψ b) + normSq (ψ (swapBits p q b))) :=
      Finset.sum_congr rfl (fun b _ => key b)
    rw [Finset.sum_add_distrib, Finset.sum_add_distrib, hre1, hre2] at hsum
    have : (2 : ℝ) * normTotal (SingleExcitation θ p q ψ) = 2 * normTotal ψ := by
      unfold normTotal; linarith
    linarith

theorem normTotal_DoubleExcitation {n : ℕ} (θ : ℝ) (a b c d : Fin n)
    (ψ : (Fin n → Bool) → ℂ) :
    normTotal (DoubleExcitation θ a b c d ψ) = normTotal ψ := by
  have hcs : Real.cos (θ / 2) ^ 2 + Real.sin (θ / 2) ^ 2 = 1 :=
    Real.cos_sq_add_sin_sq (θ / 2)
  have hσ : Function.Involutive (flipBits4 a b c d) := flipBits4_involutive a b c d
  have key : ∀ x, normSq (DoubleExcitation θ a b c d ψ x) +
      normSq (DoubleExcitation θ a b c d ψ (flipBits4 a b c d x)) =
      normSq (ψ x) + normSq (ψ (flipBits4 a b c d x)) := by
    intro x
    by_cases hlo : x a = false ∧ x b = false ∧ x c = true ∧ x d = true
    · have h1 := DoubleExcitation_apply_lo θ ψ hlo.1 hlo.2.1 hlo.2.2.1 hlo.2.2.2
      have h2 := @DoubleExcitation_apply_hi n θ a b c d ψ (flipBits4 a b c d x)
        (by rw [flipBits4_apply_a, hlo.1]; rfl)
        (by rw [flipBits4_apply_b, hlo.2.1]; rfl)
        (by rw [flipBits4_apply_c, hlo.2.2.1]; rfl)
        (by rw [flipBits4_apply_d, hlo.2.2.2]; rfl)
      rw [h1, h2, hσ x]
      exact normSq_rot _ _ hcs (ψ x) (ψ (flipBits4 a b c d x))
    · by_cases hhi : x a = true ∧ x b = true ∧ x c = false ∧ x d = false
      · have h1 := DoubleExcitation_apply_hi θ ψ hhi.1 hhi.2.1 hhi.2.2.1 hhi.2.2.2
        have h2 := @DoubleExcitation_apply_lo n θ a b c d ψ (flipBits4 a b c d x)
          (by rw [flipBits4_apply_a, hhi.1]; rfl)
          (by rw [flipBits4_apply_b, hhi.2.1]; rfl)
          (by rw [flipBits4_apply_c, hhi.2.2.1]; rfl)
          (by rw [flipBits4_apply_d, hhi.2.2.2]; rfl)
        rw [h1, h2, hσ x]
        have := normSq_rot _ _ hcs (ψ (flipBits4 a b c d x)) (ψ x)
        linarith
      · have h1 := DoubleExcitation_apply_other θ ψ hlo hhi
        have h2 := @DoubleExcitation_apply_other n θ a b c d ψ (flipBits4 a b c d x)
          (by
            rw [flipBits4_apply_a, flipBits4_apply_b, flipBits4_apply_c, flipBits4_apply_d]
            simp only [Bool.not_eq_false', Bool.not_eq_true']
            exact hhi)
          (by
            rw [flipBits4_apply_a, flipBits4_apply_b, flipBits4_apply_c, flipBits4_apply_d]
            simp only [Bool.not_eq_false', Bool.not_eq_true']
            exact hlo)
        rw [h1, h2]
  have hre1 : ∑ x, normSq (DoubleExcitation θ a b c d ψ (flipBits4 a b c d x)) =
      ∑ x, normSq (DoubleExcitation θ a b c d ψ x) :=
    hσ.bijective.sum_comp (fun x => normSq (DoubleExcitation θ a b c d ψ x))
  have hre2 : ∑ x, normSq (ψ (flipBits4 a b c d x)) = ∑ x, normSq (ψ x) :=
    hσ.bijective.sum_comp (fun x => normSq (ψ x))
  have hsum : ∑ x, (normSq (DoubleExcitation θ a b c d ψ x) +
      normSq (DoubleExcitation θ a b c d ψ (flipBits4 a b c d x))) =
      ∑ x, (normSq (ψ x) + normSq (ψ (flipBits4 a b c d x))) :=
    Finset.sum_congr rfl (fun x _ => key x)
  rw [Finset.sum_add_distrib, Finset.sum_add_distrib, hre1, hre2] at hsum
  unfold normTotal
  linarith

end NormLemmas

section WeightLemmas

variable {n : ℕ}

theorem weight_flipBits4 {a b c d : Fin n}
    (hab : a ≠ b) (hac : a ≠ c) (had : a ≠ d)
    (hbc : b ≠ c) (hbd : b ≠ d) (hcd : c ≠ d) {x : Fin n → Bool}
    (hpat : (x a = false ∧ x b = false ∧ x c = true ∧ x d = true) ∨
            (x a = true ∧ x b = true ∧ x c = false ∧ x d = false)) :
    weight (flipBits4 a b c d x) = weight x := by
  have expand : ∀ g : Fin n → ℕ,
      ∑ i ∈ ({a, b, c, d} : Finset (Fin n)), g i = g a + (g b + (g c + g d)) := by
    intro g
    rw [Finset.sum_insert (by simp [hab, hac, had]),
      Finset.sum_insert (by simp [hbc, hbd]),
      Finset.sum_insert (by simp [hcd]), Finset.sum_singleton]
  have hoff : ∀ i ∉ ({a, b, c, d} : Finset (Fin n)),
      (if flipBits4 a b c d x i then 1 else 0) = (if x i then (1 : ℕ) else 0) := by
    intro i hi
    simp only [Finset.mem_insert, Finset.mem_singleton] at hi
    push_neg at hi
    rw [flipBits4_apply_notMem (by tauto) x]
  unfold weight
  rw [← Finset.sum_add_sum_compl ({a, b, c, d} : Finset (Fin n))
      (fun i => if flipBits4 a b c d x i then (1 : ℕ) else 0),
    ← Finset.sum_add_sum_compl ({a, b, c, d} : Finset (Fin n))
      (fun i => if x i then (1 : ℕ) else 0)]
  have hcompl : ∑ i ∈ ({a, b, c, d} : Finset (Fin n))ᶜ,
      (if flipBits4 a b c d x i then (1 : ℕ) else 0) =
      ∑ i ∈ ({a, b, c, d} : Finset (Fin n))ᶜ, (if x i then (1 : ℕ) else 0) :=
    Finset.sum_congr rfl (fun i hi => hoff i (Finset.mem_compl.mp hi))
  rw [hcompl, expand, expand]
  rcases hpat with ⟨h1, h2, h3, h4⟩ | ⟨h1, h2, h3, h4⟩ <;>
    rw [flipBits4_apply_a, flipBits4_apply_b, flipBits4_apply_c, flipBits4_apply_d,
      h1, h2, h3, h4] <;> norm_num

theorem supportedOnWeight_SingleExcitation {m : ℕ} (θ : ℝ) (p q : Fin n)
    {ψ : (Fin n → Bool) → ℂ} (h : supportedOnWeight m ψ) :
    supportedOnWeight m (SingleExcitation θ p q ψ) := by
  intro b hb
  have key : ψ b ≠ 0 ∨ ψ (swapBits p q b) ≠ 0 := by
    by_contra hcon
    push_neg at hcon
    apply hb
    by_cases hlo : b p = false ∧ b q = true
    · rw [SingleExcitation_apply_lo θ ψ hlo.1 hlo.2, hcon.1, hcon.2]; ring
    · by_cases hhi : b p = true ∧ b q = false
      · rw [SingleExcitation_apply_hi θ ψ hhi.1 hhi.2, hcon.1, hcon.2]; ring
      · have heq : b p = b q := by
          cases hp : b p <;> cases hq : b q <;> simp_all
        rw [SingleExcitation_apply_other θ ψ heq]
        exact hcon.1
  rcases key with h1 | h2
  · exact h b h1
  · have := h _ h2
    rwa [weight_swapBits] at this

theorem supportedOnWeight_DoubleExcitation {m : ℕ} (θ : ℝ) {a b c d : Fin n}
    (hab : a ≠ b) (hac : a ≠ c) (had : a ≠ d)
    (hbc : b ≠ c) (hbd : b ≠ d) (hcd : c ≠ d)
    {ψ : (Fin n → Bool) → ℂ} (h : supportedOnWeight m ψ) :
    supportedOnWeight m (DoubleExcitation θ a b c d ψ) := by
  intro x hx
  by_cases hlo : x a = false ∧ x b = false ∧ x c = true ∧ x d = true
  · rw [DoubleExcitation_apply_lo θ ψ hlo.1 hlo.2.1 hlo.2.2.1 hlo.2.2.2] at hx
    have key : ψ x ≠ 0 ∨ ψ (flipBits4 a b c d x) ≠ 0 := by
      by_contra hcon
      push_neg at hcon
      apply hx
      rw [hcon.1, hcon.2]; ring
    rcases key with h1 | h2
    · exact h x h1
    · have := h _ h2
      rwa [weight_flipBits4 hab hac had hbc hbd hcd (Or.inl hlo)] at this
  · by_cases hhi : x a = true ∧ x b = true ∧ x c = false ∧ x d = false
    · rw [DoubleExcitation_apply_hi θ ψ hhi.1 hhi.2.1 hhi.2.2.1 hhi.2.2.2] at hx
      have key : ψ x ≠ 0 ∨ ψ (flipBits4 a b c d x) ≠ 0 := by
        by_contra hcon
        push_neg at hcon
        apply hx
        rw [hcon.1, hcon.2]; ring
      rcases key with h1 | h2
      · exact h x h1
      · have := h _ h2
        rwa [weight_flipBits4 hab hac had hbc hbd hcd (Or.inr hhi)] at this
    · rw [DoubleExcitation_apply_other θ ψ hlo hhi] at hx
      exact h x hx

theorem supportedOnWeight_BasisState (b0 : Fin n → Bool) :
    supportedOnWeight (weight b0) (BasisState b0) := by
  intro b hb
  by_cases h : b = b0
  · rw [h]
  · exact absurd (by simp [BasisState, h]) hb

theorem normTotal_BasisState (b0 : Fin n → Bool) :
    normTotal (BasisState b0) = 1 := by
  unfold normTotal BasisState
  rw [Finset.sum_congr rfl
    (fun b _ => by rw [apply_ite normSq, Complex.normSq_one, Complex.normSq_zero])]
  simp

end WeightLemmas

/-- A gate of the tutorial's circuits: a single- or double-excitation
rotation together with the wires it acts on. -/
inductive Gate (n : ℕ) where
  | single : ℝ → Fin n → Fin n → Gate n
  | double : ℝ → Fin n → Fin n → Fin n → Fin n → Gate n

/-- Apply one gate to a state vector. -/
noncomputable def applyGate {n : ℕ} : Gate n → ((Fin n → Bool) → ℂ) → ((Fin n → Bool) → ℂ)
  | Gate.single θ p q, ψ => SingleExcitation θ p q ψ
  | Gate.double θ a b c d, ψ => DoubleExcitation θ a b c d ψ

/-- Apply a sequence of gates to a state vector, first gate first. -/
noncomputable def applyGates {n : ℕ} (gs : List (Gate n)) (ψ : (Fin n → Bool) → ℂ) :
    (Fin n → Bool) → ℂ :=
  gs.foldl (fun φ g => applyGate g φ) ψ

/-- The wires of a gate are pairwise distinct (PennyLane rejects repeated
wires, and the tutorial's circuits only use distinct wires). -/
def Gate.wellFormed {n : ℕ} : Gate n → Prop
  | Gate.single _ p q => p ≠ q
  | Gate.double _ a b c d => a ≠ b ∧ a ≠ c ∧ a ≠ d ∧ b ≠ c ∧ b ≠ d ∧ c ≠ d

theorem applyGates_cons {n : ℕ} (g : Gate n) (gs : List (Gate n))
    (ψ : (Fin n → Bool) → ℂ) :
    applyGates (g :: gs) ψ = applyGates gs (applyGate g ψ) := rfl

theorem applyGates_nil {n : ℕ} (ψ : (Fin n → Bool) → ℂ) :
    applyGates [] ψ = ψ := rfl

theorem normTotal_applyGate {n : ℕ} (g : Gate n) (ψ : (Fin n → Bool) → ℂ) :
    normTotal (applyGate g ψ) = normTotal ψ := by
  cases g with
  | single θ p q => exact normTotal_SingleExcitation θ p q ψ
  | double θ a b c d => exact normTotal_DoubleExcitation θ a b c d ψ

theorem normTotal_applyGates {n : ℕ} (gs : List (Gate n)) (ψ : (Fin n → Bool) → ℂ) :
    normTotal (applyGates gs ψ) = normTotal ψ := by
  induction gs generalizing ψ with
  | nil => rfl
  | cons g gs ih => rw [applyGates_cons, ih, normTotal_applyGate]

theorem supportedOnWeight_applyGate {n m : ℕ} {g : Gate n} (hg : g.wellFormed)
    {ψ : (Fin n → Bool) → ℂ} (h : supportedOnWeight m ψ) :
    supportedOnWeight m (applyGate g ψ) := by
  cases g with
  | single θ p q => exact supportedOnWeight_SingleExcitation θ p q h
  | double θ a b c d =>
    exact supportedOnWeight_DoubleExcitation θ hg.1 hg.2.1 hg.2.2.1 hg.2.2.2.1
      hg.2.2.2.2.1 hg.2.2.2.2.2 h

theorem supportedOnWeight_applyGates {n m : ℕ} {gs : List (Gate n)}
    (hg : ∀ g ∈ gs, g.wellFormed) {ψ : (Fin n → Bool) → ℂ}
    (h : supportedOnWeight m ψ) :
    supportedOnWeight m (applyGates gs ψ) := by
  induction gs generalizing ψ with
  | nil => exact h
  | cons g gs ih =>
    rw [applyGates_cons]
    exact ih (fun g' hg' => hg g' (List.mem_cons_of_mem g hg'))
      (supportedOnWeight_applyGate (hg g (List.mem_cons_self g gs)) h)

/-- Initial occupation `[1, 0, 0]` of `circuit` (`qml.BasisState` call). -/
def init100 : Fin 3 → Bool := fun i => decide (i.val = 0)

/-- Initial occupation `[1, 1, 1, 0, 0, 0]` of `circuit2`. -/
def init111000 : Fin 6 → Bool := fun i => decide (i.val < 3)

/-- Initial occupation `[1, 1, 0, 0, 0, 0]` of `circuit3`. -/
def init110000 : Fin 6 → Bool := fun i => decide (i.val < 2)

/-- The tutorial's `circuit(x, y)`: prepare `|100⟩` on three wires, apply
`SingleExcitation(x, wires=[0, 1])` then `SingleExcitation(y, wires=[0, 2])`,
and return the state. -/
noncomputable def circuit (x y : ℝ) : (Fin 3 → Bool) → ℂ :=
  SingleExcitation y 0 2 (SingleExcitation x 0 1 (BasisState init100))

/-- The gate sequence of the tutorial's `circuit2`: one single-excitation
gate with angle `x[i]` for the `i`-th pair in `singles`, then one
double-excitation gate with angle `y[j]` for the `j`-th quadruple in
`doubles`, in list order. -/
def circuit2Gates (singles : List (Fin 6 × Fin 6))
    (doubles : List (Fin 6 × Fin 6 × Fin 6 × Fin 6)) (x y : ℕ → ℝ) : List (Gate 6) :=
  (singles.enum.map fun is => Gate.single (x is.1) is.2.1 is.2.2) ++
    (doubles.enum.map fun jd => Gate.double (y jd.1) jd.2.1 jd.2.2.1 jd.2.2.2.1 jd.2.2.2.2)

/-- The tutorial's `circuit2(x, y)`: prepare `|111000⟩` on six wires and
apply the excitation gates given by `singles` and `doubles` (the output of
`qml.qchem.excitations(3, 6)`, kept as parameters here) with the angle
parameters `x` and `y`. -/
noncomputable def circuit2 (singles : List (Fin 6 × Fin 6))
    (doubles : List (Fin 6 × Fin 6 × Fin 6 × Fin 6)) (x y : ℕ → ℝ) :
    (Fin 6 → Bool) → ℂ :=
  applyGates (circuit2Gates singles doubles x y) (BasisState init111000)

/-- The tutorial's `circuit3(x, y, z)`: prepare `|110000⟩` on six wires,
apply `DoubleExcitation(x, wires=[0, 1, 2, 3])`,
`DoubleExcitation(y, wires=[0, 1, 4, 5])` and
`SingleExcitation(z, wires=[1, 3])`, and return the state. -/
noncomputable def circuit3 (x y z : ℝ) : (Fin 6 → Bool) → ℂ :=
  SingleExcitation z 1 3
    (DoubleExcitation y 0 1 4 5
      (DoubleExcitation x 0 1 2 3 (BasisState init110000)))

/-- The occupation vector encoded by index `k` of the returned state array:
bit `i` of the binary representation of `k` (width `n`) gives the
occupation of qubit `i`, so qubit `i` corresponds to numeric bit
`n - 1 - i`. -/
def occOf (n k : ℕ) : Fin n → Bool := fun i => Nat.testBit k (n - 1 - i.val)

/-- `qml.state()`: the state vector as the ordered list of its `2 ^ n`
complex amplitudes, entry `k` being the amplitude of the basis state whose
binary representation is `k`. -/
noncomputable def stateList (n : ℕ) (ψ : (Fin n → Bool) → ℂ) : List ℂ :=
  (List.range (2 ^ n)).map (fun k => ψ (occOf n k))

/-- `np.binary_repr(k, width=w)` as a list of characters. -/
def binaryRepr (w k : ℕ) : List Char :=
  (List.range w).map (fun i => if Nat.testBit k (w - 1 - i) then '1' else '0')

/-- Fuel-indexed executor: apply the gates one per step, failing if the
fuel runs out before the gate list is exhausted. -/
noncomputable def runFuel {n : ℕ} :
    ℕ → List (Gate n) → ((Fin n → Bool) → ℂ) → Option ((Fin n → Bool) → ℂ)
  | _, [], ψ => some ψ
  | 0, _ :: _, _ => none
  | fuel + 1, g :: gs, ψ => runFuel fuel gs (applyGate g ψ)

/-- A gate as written in the script: raw (unchecked) wire indices. -/
inductive GateSpec where
  | single : ℝ → ℕ → ℕ → GateSpec
  | double : ℝ → ℕ → ℕ → ℕ → ℕ → GateSpec

/-- Validate a raw gate against a device with `n` wires: all wire indices
must be in range and pairwise distinct (the conditions PennyLane checks
when an operation is applied). -/
def checkGate (n : ℕ) : GateSpec → Option (Gate n)
  | GateSpec.single θ p q =>
    if h : p < n ∧ q < n ∧ p ≠ q then
      some (Gate.single θ ⟨p, h.1⟩ ⟨q, h.2.1⟩)
    else none
  | GateSpec.double θ a b c d =>
    if h : a < n ∧ b < n ∧ c < n ∧ d < n ∧
        a ≠ b ∧ a ≠ c ∧ a ≠ d ∧ b ≠ c ∧ b ≠ d ∧ c ≠ d then
      some (Gate.double θ ⟨a, h.1⟩ ⟨b, h.2.1⟩ ⟨c, h.2.2.1⟩ ⟨d, h.2.2.2.1⟩)
    else none

/-- Execute a list of raw gates, returning `none` (an error) as soon as a
gate fails validation. -/
noncomputable def runChecked (n : ℕ) :
    List GateSpec → ((Fin n → Bool) → ℂ) → Option ((Fin n → Bool) → ℂ)
  | [], ψ => some ψ
  | g :: gs, ψ =>
    match checkGate n g with
    | none => none
    | some g' => runChecked n gs (applyGate g' ψ)

/-- The angle `x = -2 * np.arccos(np.sqrt(2/3))` of the first snippet. -/
noncomputable def xc : ℝ := -2 * Real.arccos (Real.sqrt (2 / 3))

/-- The angle `y = -np.pi / 2` of the first snippet. -/
noncomputable def yc : ℝ := -(Real.pi / 2)

/-- The angle `x = -2 * np.arcsin(np.sqrt(1/4))` of the `circuit3` snippet. -/
noncomputable def x3c : ℝ := -2 * Real.arcsin (Real.sqrt (1 / 4))

/-- The angle `y = -2 * np.arcsin(np.sqrt(1/3))` of the `circuit3` snippet. -/
noncomputable def y3c : ℝ := -2 * Real.arcsin (Real.sqrt (1 / 3))

/-- The angle `z = -2 * np.arcsin(np.sqrt(1/2))` of the `circuit3` snippet. -/
noncomputable def z3c : ℝ := -2 * Real.arcsin (Real.sqrt (1 / 2))

/-- One run of the whole script, as a function of the only run-to-run
varying data: the parameters `x`, `y` of `circuit2`, freshly sampled by
`np.random.normal` on each run.  The components are the state vectors
returned by `circuit`, `circuit2` and `circuit3` (each printed by the
script), with the script's fixed angle arguments for `circuit` and
`circuit3`. -/
noncomputable def scriptRun (singles : List (Fin 6 × Fin 6))
    (doubles : List (Fin 6 × Fin 6 × Fin 6 × Fin 6)) (x y : ℕ → ℝ) :
    ((Fin 3 → Bool) → ℂ) × ((Fin 6 → Bool) → ℂ) × ((Fin 6 → Bool) → ℂ) :=
  (circuit xc yc, circuit2 singles doubles x y, circuit3 x3c y3c z3c)

/-- Occupation vector of `|001100⟩`. -/
def occ001100 : Fin 6 → Bool := fun i => decide (i.val = 2 ∨ i.val = 3)

/-- Occupation vector of `|000011⟩`. -/
def occ000011 : Fin 6 → Bool := fun i => decide (i.val = 4 ∨ i.val = 5)

/-- Occupation vector of `|100100⟩`. -/
def occ100100 : Fin 6 → Bool := fun i => decide (i.val = 0 ∨ i.val = 3)

/-- Occupation vector of `|011000⟩`. -/
def occ011000 : Fin 6 → Bool := fun i => decide (i.val = 1 ∨ i.val = 2)

/-- The state the `circuit3` snippet is trying (and, per the tutorial,
failing) to prepare:
`(1/2)(|110000⟩ + |001100⟩ + |000011⟩ + |100100⟩)`. -/
noncomputable def intendedState : (Fin 6 → Bool) → ℂ := fun b =>
  if b = init110000 ∨ b = occ001100 ∨ b = occ000011 ∨ b = occ100100 then 1 / 2 else 0

theorem runFuel_length {n : ℕ} (gates : List (Gate n)) (ψ : (Fin n → Bool) → ℂ) :
    runFuel gates.length gates ψ = some (applyGates gates ψ) := by
  induction gates generalizing ψ with
  | nil => rfl
  | cons g gs ih =>
    rw [List.length_cons, applyGates_cons]
    exact ih (applyGate g ψ)

theorem circuit2Gates_length (singles : List (Fin 6 × Fin 6))
    (doubles : List (Fin 6 × Fin 6 × Fin 6 × Fin 6)) (x y : ℕ → ℝ) :
    (circuit2Gates singles doubles x y).length = singles.length + doubles.length := by
  simp [circuit2Gates]

theorem runChecked_isSome {n : ℕ} (gs : List GateSpec) (ψ : (Fin n → Bool) → ℂ)
    (h : ∀ g ∈ gs, (checkGate n g).isSome) : (runChecked n gs ψ).isSome := by
  induction gs generalizing ψ with
  | nil => rfl
  | cons g gs ih =>
    have hg := h g (List.mem_cons_self g gs)
    obtain ⟨g', hg'⟩ := Option.isSome_iff_exists.mp hg
    rw [runChecked, hg']
    exact ih (applyGate g' ψ) (fun g'' hg'' => h g'' (List.mem_cons_of_mem g hg''))

/-- **C3**: for every angle `θ` and every `n`-qubit state, a
`DoubleExcitation(θ)` gate on wires `a, b, c, d` changes only the
amplitudes of the two basis states whose restriction to those wires is
`0011` or `1100` (the two states differing by a two-particle transfer);
the amplitude of every other basis state is exactly its prior value. -/
theorem claim3_double_excitation_frame {n : ℕ} (θ : ℝ) (a b c d : Fin n)
    (ψ : (Fin n → Bool) → ℂ) (x : Fin n → Bool)
    (h1 : ¬(x a = false ∧ x b = false ∧ x c = true ∧ x d = true))
    (h2 : ¬(x a = true ∧ x b = true ∧ x c = false ∧ x d = false)) :
    DoubleExcitation θ a b c d ψ x = ψ x :=
  DoubleExcitation_apply_other θ ψ h1 h2

/-- Witness for C3: the all-zero basis state on four wires is neither
`0011` nor `1100`, so a double excitation with angle `1` leaves its
amplitude (here `1`) unchanged. -/
theorem claim3_witness :
    (¬((fun _ : Fin 4 => false) 0 = false ∧ (fun _ : Fin 4 => false) 1 = false ∧
        (fun _ : Fin 4 => false) 2 = true ∧ (fun _ : Fin 4 => false) 3 = true)) ∧
    DoubleExcitation 1 0 1 2 3 (fun _ : Fin 4 → Bool => (1 : ℂ)) (fun _ => false) = 1 :=
  ⟨by decide,
    claim3_double_excitation_frame 1 0 1 2 3 (fun _ => (1 : ℂ)) (fun _ => false)
      (by decide) (by decide)⟩

/-- **C5**: every returned state vector is an ordered list of complex
amplitudes of length exactly `2 ^ n` (8 for `circuit`, 64 for `circuit2`
and `circuit3`), whose entry `k` is the amplitude of the basis state with
binary representation `k` (bit `i` = occupation of qubit `i`); in
particular entry 1 is `|001⟩`, entry 2 is `|010⟩` and entry 4 is `|100⟩`
for three qubits. -/
theorem claim5_state_vector_shape :
    (∀ x y, (stateList 3 (circuit x y)).length = 2 ^ 3) ∧
    (∀ singles doubles x y,
      (stateList 6 (circuit2 singles doubles x y)).length = 2 ^ 6) ∧
    (∀ x y z, (stateList 6 (circuit3 x y z)).length = 2 ^ 6) ∧
    (∀ (n : ℕ) (ψ : (Fin n → Bool) → ℂ) (k : Fin (2 ^ n)),
      (stateList n ψ).get ⟨k.val, by simp [stateList]⟩ =
        ψ (occOf n k.val)) ∧
    occOf 3 1 = (fun i => decide (i.val = 2)) ∧
    occOf 3 2 = (fun i => decide (i.val = 1)) ∧
    occOf 3 4 = (fun i => decide (i.val = 0)) := by
  refine ⟨?_, ?_, ?_, ?_, ?_, ?_, ?_⟩
  · intro x y; simp [stateList]
  · intro singles doubles x y; simp [stateList]
  · intro x y z; simp [stateList]
  · intro m ψ k
    rw [List.get_eq_getElem]
    simp [stateList]
  · decide
  · decide
  · decide

/-- **C6**: under well-formed inputs the execution reaches no error
branch: running `circuit` and `circuit3` through a validating executor
(which checks the wire indices against the device, as PennyLane does)
succeeds and returns exactly the unchecked state vectors, and any gate
list whose gates all validate runs to a result rather than an error. -/
theorem claim6_no_error_paths :
    (∀ x y, runChecked 3 [GateSpec.single x 0 1, GateSpec.single y 0 2]
        (BasisState init100) = some (circuit x y)) ∧
    (∀ x y z, runChecked 6 [GateSpec.double x 0 1 2 3, GateSpec.double y 0 1 4 5,
        GateSpec.single z 1 3] (BasisState init110000) = some (circuit3 x y z)) ∧
    (∀ (n : ℕ) (gs : List GateSpec) (ψ : (Fin n → Bool) → ℂ),
      (∀ g ∈ gs, (checkGate n g).isSome) → (runChecked n gs ψ).isSome) := by
  refine ⟨?_, ?_, ?_⟩
  · intro x y; rfl
  · intro x y z; rfl
  · exact fun n gs ψ h => runChecked_isSome gs ψ h

/-- Witness for C6: the first single excitation of `circuit2`'s gate list
(`wires=[0, 4]` from `qml.qchem.excitations(3, 6)`) validates on the
six-wire device, so the checked run returns a state. -/
theorem claim6_witness :
    (∀ g ∈ [GateSpec.single 0 0 4], (checkGate 6 g).isSome) ∧
    (runChecked 6 [GateSpec.single 0 0 4] (BasisState init111000)).isSome := by
  have h : ∀ g ∈ [GateSpec.single 0 0 4], (checkGate 6 g).isSome := by
    intro g hg
    rw [List.mem_singleton] at hg
    subst hg
    rfl
  exact ⟨h, claim6_no_error_paths.2.2 6 [GateSpec.single 0 0 4] (BasisState init111000) h⟩

/-- **C7**: the whole script terminates.  The fueled executor halts on any
gate list with fuel equal to its (finite) length; `circuit2`'s loops
produce exactly `len(singles) + len(doubles)` gates; and each of the three
snippets' gate sequences runs to completion, producing the state the
snippet then prints. -/
theorem claim7_script_terminates :
    (∀ (n : ℕ) (gates : List (Gate n)) (ψ : (Fin n → Bool) → ℂ),
      runFuel gates.length gates ψ = some (applyGates gates ψ)) ∧
    (∀ singles doubles x y,
      (circuit2Gates singles doubles x y).length = singles.length + doubles.length) ∧
    (∀ x y, runFuel 2 [Gate.single x 0 1, Gate.single y 0 2] (BasisState init100) =
      some (circuit x y)) ∧
    (∀ singles doubles x y,
      runFuel (singles.length + doubles.length) (circuit2Gates singles doubles x y)
        (BasisState init111000) = some (circuit2 singles doubles x y)) ∧
    (∀ x y z, runFuel 3 [Gate.double x 0 1 2 3, Gate.double y 0 1 4 5, Gate.single z 1 3]
        (BasisState init110000) = some (circuit3 x y z)) := by
  refine ⟨fun n gates ψ => runFuel_length gates ψ, circuit2Gates_length, ?_, ?_, ?_⟩
  · intro x y
    exact runFuel_length [Gate.single x 0 1, Gate.single y 0 2] (BasisState init100)
  · intro singles doubles x y
    rw [← circuit2Gates_length singles doubles x y]
    exact runFuel_length (circuit2Gates singles doubles x y) (BasisState init111000)
  · intro x y z
    exact runFuel_length [Gate.double x 0 1 2 3, Gate.double y 0 1 4 5, Gate.single z 1 3]
      (BasisState init110000)

/-- **C9**: every state vector returned by `circuit`, `circuit2` and
`circuit3` has unit norm for all real angle arguments: each starts from a
normalized basis state and applies only norm-preserving excitation
gates. -/
theorem claim9_unit_norm :
    (∀ x y, normTotal (circuit x y) = 1) ∧
    (∀ singles doubles x y, normTotal (circuit2 singles doubles x y) = 1) ∧
    (∀ x y z, normTotal (circuit3 x y z) = 1) := by
  refine ⟨?_, ?_, ?_⟩
  · intro x y
    unfold circuit
    rw [normTotal_SingleExcitation, normTotal_SingleExcitation, normTotal_BasisState]
  · intro singles doubles x y
    unfold circuit2
    rw [normTotal_applyGates, normTotal_BasisState]
  · intro x y z
    unfold circuit3
    rw [normTotal_SingleExcitation, normTotal_DoubleExcitation,
      normTotal_DoubleExcitation, normTotal_BasisState]

/-- **C10**: each qnode is a deterministic function of its arguments: equal
angle arguments give equal state vectors; and across two runs of the
script the `circuit` and `circuit3` outputs coincide, the only run-to-run
variation entering through the freshly sampled `circuit2` parameters. -/
theorem claim10_deterministic :
    (∀ x y x' y', x = x' → y = y' → circuit x y = circuit x' y') ∧
    (∀ singles doubles x y x' y', x = x' → y = y' →
      circuit2 singles doubles x y = circuit2 singles doubles x' y') ∧
    (∀ x y z x' y' z', x = x' → y = y' → z = z' →
      circuit3 x y z = circuit3 x' y' z') ∧
    (∀ singles doubles x y x' y',
      (scriptRun singles doubles x y).1 = (scriptRun singles doubles x' y').1 ∧
      (scriptRun singles doubles x y).2.2 = (scriptRun singles doubles x' y').2.2 ∧
      (scriptRun singles doubles x y).2.1 = circuit2 singles doubles x y) := by
  refine ⟨?_, ?_, ?_, ?_⟩
  · intro x y x' y' hx hy; rw [hx, hy]
  · intro singles doubles x y x' y' hx hy; rw [hx, hy]
  · intro x y z x' y' z' hx hy hz; rw [hx, hy, hz]
  · intro singles doubles x y x' y'
    exact ⟨rfl, rfl, rfl⟩

/-- Witness for C10: two evaluations of `circuit` with the (equal) angle
arguments `0, 0` return the same state vector. -/
theorem claim10_witness : circuit 0 0 = circuit 0 0 :=
  claim10_deterministic.1 0 0 0 0 rfl rfl

theorem BasisState_apply_self {n : ℕ} (b0 : Fin n → Bool) :
    BasisState b0 b0 = 1 := if_pos rfl

theorem BasisState_apply_ne {n : ℕ} {b b0 : Fin n → Bool} (h : b ≠ b0) :
    BasisState b0 b = 0 := if_neg h

/-- **C1**: any sequence of single- and double-excitation gates (any
angles, each gate acting on pairwise distinct wires) maps a basis state to
a state supported only on basis states of the same Hamming weight; in
particular every nonzero amplitude of `circuit2` (initial state
`|111000⟩`) sits on a weight-3 bitstring and every nonzero amplitude of
`circuit3` (initial state `|110000⟩`) sits on a weight-2 bitstring. -/
theorem claim1_particle_conservation :
    (∀ (n : ℕ) (gates : List (Gate n)), (∀ g ∈ gates, g.wellFormed) →
      ∀ b0 b, applyGates gates (BasisState b0) b ≠ 0 → weight b = weight b0) ∧
    (∀ singles doubles x y,
      (∀ g ∈ circuit2Gates singles doubles x y, g.wellFormed) →
      ∀ b, circuit2 singles doubles x y b ≠ 0 → weight b = 3) ∧
    (∀ x y z b, circuit3 x y z b ≠ 0 → weight b = 2) := by
  refine ⟨?_, ?_, ?_⟩
  · intro n gates hg b0 b hb
    exact supportedOnWeight_applyGates hg (supportedOnWeight_BasisState b0) b hb
  · intro singles doubles x y hw b hb
    have h := supportedOnWeight_applyGates hw
      (supportedOnWeight_BasisState init111000) b hb
    rwa [(by decide : weight init111000 = 3)] at h
  · intro x y z b hb
    have h1 := @supportedOnWeight_DoubleExcitation 6 (weight init110000) x 0 1 2 3
      (by decide) (by decide) (by decide) (by decide) (by decide) (by decide)
      (BasisState init110000) (supportedOnWeight_BasisState init110000)
    have h2 := @supportedOnWeight_DoubleExcitation 6 (weight init110000) y 0 1 4 5
      (by decide) (by decide) (by decide) (by decide) (by decide) (by decide)
      (DoubleExcitation x 0 1 2 3 (BasisState init110000)) h1
    have h3 := supportedOnWeight_SingleExcitation z 1 3 h2
    have h := h3 b hb
    rwa [(by decide : weight init110000 = 2)] at h

/-- Witness for C1: the one-gate sequence `SingleExcitation(π, wires=[0,1])`
on `|100⟩` is well formed, and at the basis state `|010⟩` (where the
resulting amplitude is `-1 ≠ 0`) the Hamming weight agrees with that of
the initial state. -/
theorem claim1_witness :
    (∀ g ∈ ([Gate.single Real.pi 0 1] : List (Gate 3)), g.wellFormed) ∧
    weight (fun i : Fin 3 => decide (i.val = 1)) = weight init100 := by
  have hwf : ∀ g ∈ ([Gate.single Real.pi 0 1] : List (Gate 3)), g.wellFormed := by
    intro g hg
    rw [List.mem_singleton] at hg
    subst hg
    exact (by decide : (0 : Fin 3) ≠ 1)
  refine ⟨hwf, claim1_particle_conservation.1 3 [Gate.single Real.pi 0 1] hwf init100
    (fun i => decide (i.val = 1)) ?_⟩
  rw [applyGates_cons, applyGates_nil]
  show SingleExcitation Real.pi 0 1 (BasisState init100)
    (fun i : Fin 3 => decide (i.val = 1)) ≠ 0
  rw [SingleExcitation_apply_lo Real.pi (BasisState init100)
      (by decide : (fun i : Fin 3 => decide (i.val = 1)) 0 = false)
      (by decide : (fun i : Fin 3 => decide (i.val = 1)) 1 = true),
    (by decide : swapBits 0 1 (fun i : Fin 3 => decide (i.val = 1)) = init100),
    BasisState_apply_ne (by decide), BasisState_apply_self]
  simp [Real.cos_pi_div_two, Real.sin_pi_div_two]

/-- **C4**: for every angle `θ`, the single-excitation rotation `G(θ)`
applied to any superposition of `|01⟩` and `|10⟩` (a two-qubit state
vanishing on `|00⟩` and `|11⟩`) preserves the total squared norm of the
state and keeps the image inside the span of `|01⟩` and `|10⟩`, both of
Hamming weight 1. -/
theorem claim4_single_excitation_preserves (θ : ℝ) (ψ : (Fin 2 → Bool) → ℂ)
    (h00 : ψ (fun _ => false) = 0) (h11 : ψ (fun _ => true) = 0) :
    normTotal (SingleExcitation θ 0 1 ψ) = normTotal ψ ∧
    SingleExcitation θ 0 1 ψ (fun _ => false) = 0 ∧
    SingleExcitation θ 0 1 ψ (fun _ => true) = 0 ∧
    weight (fun i : Fin 2 => decide (i.val = 1)) = 1 ∧
    weight (fun i : Fin 2 => decide (i.val = 0)) = 1 := by
  refine ⟨normTotal_SingleExcitation θ 0 1 ψ, ?_, ?_, by decide, by decide⟩
  · rw [@SingleExcitation_apply_other 2 θ 0 1 ψ (fun _ => false) rfl]
    exact h00
  · rw [@SingleExcitation_apply_other 2 θ 0 1 ψ (fun _ => true) rfl]
    exact h11

/-- Witness for C4: the basis state `|01⟩` vanishes on `|00⟩` and `|11⟩`,
and the rotation with angle `1` preserves its total squared norm. -/
theorem claim4_witness :
    (BasisState (fun i : Fin 2 => decide (i.val = 1)) (fun _ => false) = 0 ∧
      BasisState (fun i : Fin 2 => decide (i.val = 1)) (fun _ => true) = 0) ∧
    normTotal (SingleExcitation 1 0 1
        (BasisState (fun i : Fin 2 => decide (i.val = 1)))) =
      normTotal (BasisState (fun i : Fin 2 => decide (i.val = 1))) := by
  have h00 : BasisState (fun i : Fin 2 => decide (i.val = 1)) (fun _ => false) = 0 :=
    BasisState_apply_ne (by decide)
  have h11 : BasisState (fun i : Fin 2 => decide (i.val = 1)) (fun _ => true) = 0 :=
    BasisState_apply_ne (by decide)
  exact ⟨⟨h00, h11⟩,
    (claim4_single_excitation_preserves 1 (BasisState (fun i => decide (i.val = 1)))
      h00 h11).1⟩

section AngleValues

theorem cos_xc_half : Real.cos (xc / 2) = Real.sqrt (2 / 3) := by
  have h : xc / 2 = -Real.arccos (Real.sqrt (2 / 3)) := by unfold xc; ring
  rw [h, Real.cos_neg, Real.cos_arccos
    (le_trans (by norm_num) (Real.sqrt_nonneg _))
    (Real.sqrt_le_one.mpr (by norm_num))]

theorem sin_xc_half : Real.sin (xc / 2) = -Real.sqrt (1 / 3) := by
  have h : xc / 2 = -Real.arccos (Real.sqrt (2 / 3)) := by unfold xc; ring
  rw [h, Real.sin_neg, Real.sin_arccos, Real.sq_sqrt (by norm_num : (0 : ℝ) ≤ 2 / 3)]
  norm_num

theorem cos_yc_half : Real.cos (yc / 2) = Real.sqrt 2 / 2 := by
  have h : yc / 2 = -(Real.pi / 4) := by unfold yc; ring
  rw [h, Real.cos_neg, Real.cos_pi_div_four]

theorem sin_yc_half : Real.sin (yc / 2) = -(Real.sqrt 2 / 2) := by
  have h : yc / 2 = -(Real.pi / 4) := by unfold yc; ring
  rw [h, Real.sin_neg, Real.sin_pi_div_four]

theorem sqrt_third : Real.sqrt (1 / 3) = (Real.sqrt 3)⁻¹ := by
  rw [(by norm_num : (1 / 3 : ℝ) = 3⁻¹), Real.sqrt_inv]

theorem sqrt_prod_third : Real.sqrt 2 / 2 * Real.sqrt (2 / 3) = (Real.sqrt 3)⁻¹ := by
  rw [Real.sqrt_div (by norm_num : (0 : ℝ) ≤ 2) 3]
  have h2 : Real.sqrt 2 * Real.sqrt 2 = 2 := Real.mul_self_sqrt (by norm_num)
  have h3 : (0 : ℝ) < Real.sqrt 3 := Real.sqrt_pos.mpr (by norm_num)
  field_simp

theorem sin_x3c_half : Real.sin (x3c / 2) = -(1 / 2) := by
  have h : x3c / 2 = -Real.arcsin (Real.sqrt (1 / 4)) := by unfold x3c; ring
  have h4 : Real.sqrt (1 / 4) = 1 / 2 := by
    rw [(by norm_num : (1 / 4 : ℝ) = (1 / 2) ^ 2),
      Real.sqrt_sq (by norm_num : (0 : ℝ) ≤ 1 / 2)]
  rw [h, Real.sin_neg, Real.sin_arcsin
    (le_trans (by norm_num) (Real.sqrt_nonneg _))
    (by rw [h4]; norm_num), h4]

theorem sin_z3c_half : Real.sin (z3c / 2) = -(Real.sqrt 2)⁻¹ := by
  have h : z3c / 2 = -Real.arcsin (Real.sqrt (1 / 2)) := by unfold z3c; ring
  have hb : Real.sqrt (1 / 2) ≤ 1 := Real.sqrt_le_one.mpr (by norm_num)
  rw [h, Real.sin_neg, Real.sin_arcsin
    (le_trans (by norm_num) (Real.sqrt_nonneg _)) hb,
    (by norm_num : (1 / 2 : ℝ) = 2⁻¹), Real.sqrt_inv]

end AngleValues

/-- **C2**: running `circuit` with `x = -2*arccos(sqrt(2/3))` and
`y = -pi/2` returns exactly the equal superposition
`(1/sqrt 3)(|001⟩ + |010⟩ + |100⟩)`: the returned amplitude list has
`1/sqrt 3` at indices 1, 2 and 4 and `0` everywhere else. -/
theorem claim2_circuit_state :
    stateList 3 (circuit xc yc) =
      [0, (((Real.sqrt 3)⁻¹ : ℝ) : ℂ), (((Real.sqrt 3)⁻¹ : ℝ) : ℂ), 0,
        (((Real.sqrt 3)⁻¹ : ℝ) : ℂ), 0, 0, 0] := by
  have h10 : SingleExcitation xc 0 1 (BasisState init100) (occOf 3 0) = 0 := by
    rw [SingleExcitation_apply_other xc (BasisState init100)
        (by decide : occOf 3 0 0 = occOf 3 0 1),
      BasisState_apply_ne (by decide)]
  have h11 : SingleExcitation xc 0 1 (BasisState init100) (occOf 3 1) = 0 := by
    rw [SingleExcitation_apply_other xc (BasisState init100)
        (by decide : occOf 3 1 0 = occOf 3 1 1),
      BasisState_apply_ne (by decide)]
  have h12 : SingleExcitation xc 0 1 (BasisState init100) (occOf 3 2) =
      ((Real.sqrt (1 / 3) : ℝ) : ℂ) := by
    rw [SingleExcitation_apply_lo xc (BasisState init100)
        (by decide : occOf 3 2 0 = false) (by decide : occOf 3 2 1 = true),
      (by decide : swapBits 0 1 (occOf 3 2) = occOf 3 4),
      BasisState_apply_ne (by decide),
      (by decide : occOf 3 4 = init100), BasisState_apply_self]
    have hr : Real.cos (xc / 2) * 0 - Real.sin (xc / 2) * 1 = Real.sqrt (1 / 3) := by
      rw [sin_xc_half]; ring
    exact_mod_cast hr
  have h13 : SingleExcitation xc 0 1 (BasisState init100) (occOf 3 3) = 0 := by
    rw [SingleExcitation_apply_lo xc (BasisState init100)
        (by decide : occOf 3 3 0 = false) (by decide : occOf 3 3 1 = true),
      (by decide : swapBits 0 1 (occOf 3 3) = occOf 3 5),
      BasisState_apply_ne (by decide), BasisState_apply_ne (by decide)]
    ring
  have h14 : SingleExcitation xc 0 1 (BasisState init100) (occOf 3 4) =
      ((Real.sqrt (2 / 3) : ℝ) : ℂ) := by
    rw [SingleExcitation_apply_hi xc (BasisState init100)
        (by decide : occOf 3 4 0 = true) (by decide : occOf 3 4 1 = false),
      (by decide : swapBits 0 1 (occOf 3 4) = occOf 3 2),
      (by decide : occOf 3 4 = init100), BasisState_apply_self,
      BasisState_apply_ne (by decide)]
    have hr : Real.cos (xc / 2) * 1 + Real.sin (xc / 2) * 0 = Real.sqrt (2 / 3) := by
      rw [cos_xc_half]; ring
    exact_mod_cast hr
  have h15 : SingleExcitation xc 0 1 (BasisState init100) (occOf 3 5) = 0 := by
    rw [SingleExcitation_apply_hi xc (BasisState init100)
        (by decide : occOf 3 5 0 = true) (by decide : occOf 3 5 1 = false),
      (by decide : swapBits 0 1 (occOf 3 5) = occOf 3 3),
      BasisState_apply_ne (by decide), BasisState_apply_ne (by decide)]
    ring
  have h16 : SingleExcitation xc 0 1 (BasisState init100) (occOf 3 6) = 0 := by
    rw [SingleExcitation_apply_other xc (BasisState init100)
        (by decide : occOf 3 6 0 = occOf 3 6 1),
      BasisState_apply_ne (by decide)]
  have h17 : SingleExcitation xc 0 1 (BasisState init100) (occOf 3 7) = 0 := by
    rw [SingleExcitation_apply_other xc (BasisState init100)
        (by decide : occOf 3 7 0 = occOf 3 7 1),
      BasisState_apply_ne (by decide)]
  have hout0 : circuit xc yc (occOf 3 0) = 0 := by
    unfold circuit
    rw [SingleExcitation_apply_other yc (SingleExcitation xc 0 1 (BasisState init100))
        (by decide : occOf 3 0 0 = occOf 3 0 2)]
    exact h10
  have hout1 : circuit xc yc (occOf 3 1) = (((Real.sqrt 3)⁻¹ : ℝ) : ℂ) := by
    unfold circuit
    rw [SingleExcitation_apply_lo yc (SingleExcitation xc 0 1 (BasisState init100))
        (by decide : occOf 3 1 0 = false) (by decide : occOf 3 1 2 = true),
      (by decide : swapBits 0 2 (occOf 3 1) = occOf 3 4), h11, h14]
    have hr : Real.cos (yc / 2) * 0 - Real.sin (yc / 2) * Real.sqrt (2 / 3) =
        (Real.sqrt 3)⁻¹ := by
      rw [sin_yc_half]
      linear_combination sqrt_prod_third
    exact_mod_cast hr
  have hout2 : circuit xc yc (occOf 3 2) = (((Real.sqrt 3)⁻¹ : ℝ) : ℂ) := by
    unfold circuit
    rw [SingleExcitation_apply_other yc (SingleExcitation xc 0 1 (BasisState init100))
        (by decide : occOf 3 2 0 = occOf 3 2 2), h12]
    exact_mod_cast sqrt_third
  have hout3 : circuit xc yc (occOf 3 3) = 0 := by
    unfold circuit
    rw [SingleExcitation_apply_lo yc (SingleExcitation xc 0 1 (BasisState init100))
        (by decide : occOf 3 3 0 = false) (by decide : occOf 3 3 2 = true),
      (by decide : swapBits 0 2 (occOf 3 3) = occOf 3 6), h13, h16]
    ring
  have hout4 : circuit xc yc (occOf 3 4) = (((Real.sqrt 3)⁻¹ : ℝ) : ℂ) := by
    unfold circuit
    rw [SingleExcitation_apply_hi yc (SingleExcitation xc 0 1 (BasisState init100))
        (by decide : occOf 3 4 0 = true) (by decide : occOf 3 4 2 = false),
      (by decide : swapBits 0 2 (occOf 3 4) = occOf 3 1), h14, h11]
    have hr : Real.cos (yc / 2) * Real.sqrt (2 / 3) + Real.sin (yc / 2) * 0 =
        (Real.sqrt 3)⁻¹ := by
      rw [cos_yc_half]
      linear_combination sqrt_prod_third
    exact_mod_cast hr
  have hout5 : circuit xc yc (occOf 3 5) = 0 := by
    unfold circuit
    rw [SingleExcitation_apply_other yc (SingleExcitation xc 0 1 (BasisState init100))
        (by decide : occOf 3 5 0 = occOf 3 5 2)]
    exact h15
  have hout6 : circuit xc yc (occOf 3 6) = 0 := by
    unfold circuit
    rw [SingleExcitation_apply_hi yc (SingleExcitation xc 0 1 (BasisState init100))
        (by decide : occOf 3 6 0 = true) (by decide : occOf 3 6 2 = false),
      (by decide : swapBits 0 2 (occOf 3 6) = occOf 3 3), h16, h13]
    ring
  have hout7 : circuit xc yc (occOf 3 7) = 0 := by
    unfold circuit
    rw [SingleExcitation_apply_other yc (SingleExcitation xc 0 1 (BasisState init100))
        (by decide : occOf 3 7 0 = occOf 3 7 2)]
    exact h17
  unfold stateList
  rw [(by decide : List.range (2 ^ 3) = [0, 1, 2, 3, 4, 5, 6, 7])]
  simp only [List.map_cons, List.map_nil]
  rw [hout0, hout1, hout2, hout3, hout4, hout5, hout6, hout7]

/-- **C8**: with the script's angles, `circuit3` gives the basis state
`|011000⟩` the nonzero amplitude `-1/(2*sqrt 2)`, so the printed list of
nonzero basis states contains `'011000'` (index 24) and the uncontrolled
three-gate construction does not prepare the intended superposition
`(1/2)(|110000⟩ + |001100⟩ + |000011⟩ + |100100⟩)`. -/
theorem claim8_uncontrolled_construction_fails :
    circuit3 x3c y3c z3c occ011000 = -(((Real.sqrt 2)⁻¹ : ℝ) : ℂ) / 2 ∧
    circuit3 x3c y3c z3c occ011000 ≠ 0 ∧
    occOf 6 24 = occ011000 ∧
    binaryRepr 6 24 = ['0', '1', '1', '0', '0', '0'] ∧
    circuit3 x3c y3c z3c ≠ intendedState := by
  have h1a : DoubleExcitation x3c 0 1 2 3 (BasisState init110000) occ011000 = 0 := by
    rw [DoubleExcitation_apply_other x3c (BasisState init110000)
        (by decide : ¬(occ011000 0 = false ∧ occ011000 1 = false ∧
          occ011000 2 = true ∧ occ011000 3 = true))
        (by decide : ¬(occ011000 0 = true ∧ occ011000 1 = true ∧
          occ011000 2 = false ∧ occ011000 3 = false)),
      BasisState_apply_ne (by decide)]
  have h1b : DoubleExcitation x3c 0 1 2 3 (BasisState init110000) occ001100 =
      -((Real.sin (x3c / 2) : ℝ) : ℂ) := by
    rw [DoubleExcitation_apply_lo x3c (BasisState init110000)
        (by decide : occ001100 0 = false) (by decide : occ001100 1 = false)
        (by decide : occ001100 2 = true) (by decide : occ001100 3 = true),
      BasisState_apply_ne (by decide),
      (by decide : flipBits4 0 1 2 3 occ001100 = init110000), BasisState_apply_self]
    ring
  have h2a : DoubleExcitation y3c 0 1 4 5
      (DoubleExcitation x3c 0 1 2 3 (BasisState init110000)) occ011000 = 0 := by
    rw [DoubleExcitation_apply_other y3c
        (DoubleExcitation x3c 0 1 2 3 (BasisState init110000))
        (by decide : ¬(occ011000 0 = false ∧ occ011000 1 = false ∧
          occ011000 4 = true ∧ occ011000 5 = true))
        (by decide : ¬(occ011000 0 = true ∧ occ011000 1 = true ∧
          occ011000 4 = false ∧ occ011000 5 = false))]
    exact h1a
  have h2b : DoubleExcitation y3c 0 1 4 5
      (DoubleExcitation x3c 0 1 2 3 (BasisState init110000)) occ001100 =
      -((Real.sin (x3c / 2) : ℝ) : ℂ) := by
    rw [DoubleExcitation_apply_other y3c
        (DoubleExcitation x3c 0 1 2 3 (BasisState init110000))
        (by decide : ¬(occ001100 0 = false ∧ occ001100 1 = false ∧
          occ001100 4 = true ∧ occ001100 5 = true))
        (by decide : ¬(occ001100 0 = true ∧ occ001100 1 = true ∧
          occ001100 4 = false ∧ occ001100 5 = false))]
    exact h1b
  have hmain : circuit3 x3c y3c z3c occ011000 = -(((Real.sqrt 2)⁻¹ : ℝ) : ℂ) / 2 := by
    unfold circuit3
    rw [SingleExcitation_apply_hi z3c
        (DoubleExcitation y3c 0 1 4 5
          (DoubleExcitation x3c 0 1 2 3 (BasisState init110000)))
        (by decide : occ011000 1 = true) (by decide : occ011000 3 = false),
      (by decide : swapBits 1 3 occ011000 = occ001100), h2a, h2b]
    have hr : Real.cos (z3c / 2) * 0 + Real.sin (z3c / 2) * (-Real.sin (x3c / 2)) =
        -(Real.sqrt 2)⁻¹ / 2 := by
      rw [sin_z3c_half, sin_x3c_half]; ring
    exact_mod_cast hr
  have hvne : -(((Real.sqrt 2)⁻¹ : ℝ) : ℂ) / 2 ≠ 0 := by
    have h2 : (0 : ℝ) < Real.sqrt 2 := Real.sqrt_pos.mpr (by norm_num)
    exact div_ne_zero
      (neg_ne_zero.mpr (Complex.ofReal_ne_zero.mpr (inv_ne_zero (ne_of_gt h2))))
      two_ne_zero
  have hne : circuit3 x3c y3c z3c occ011000 ≠ 0 := by
    rw [hmain]; exact hvne
  refine ⟨hmain, hne, by decide, by decide, ?_⟩
  intro h
  have hc := congrFun h occ011000
  rw [hmain] at hc
  have hzero : intendedState occ011000 = 0 := by
    unfold intendedState
    exact if_neg (by decide)
  rw [hzero] at hc
  exact hvne hc
